import Mathlib

/-!
# Random walk over MPI: controller / walker protocol

A shallow embedding of `random_walk.cpp`.  The C++ globals `domain_size`,
`max_steps`, `world_rank`, `world_size` become explicit arguments.  The C type
`int` is modelled by `Int` with every arithmetic result reduced to the 32-bit
two's complement range.  The library generator behind `srand` / `rand` is an
arbitrary function from the seed to the stream of values `rand()` returns,
and the message channel is the list of messages in their order of arrival.
Loops take a fuel argument; running out of fuel is a distinct outcome.
-/

namespace RandomWalk

/-! ## Machine integers -/

/-- Largest value of the C type `int`. -/
def INT_MAX : Int := 2147483647

/-- Smallest value of the C type `int`. -/
def INT_MIN : Int := -2147483648

/-- Reduce a mathematical integer to the 32-bit two's complement range. -/
def wrapInt (x : Int) : Int := (x + 2147483648) % 4294967296 - 2147483648

/-- Reduce a mathematical integer to the 64-bit two's complement range (`time_t`). -/
def wrapLong (x : Int) : Int :=
  (x + 9223372036854775808) % 18446744073709551616 - 9223372036854775808

/-- The `abs` of `cstdlib` on `int`: negates a negative argument. -/
def abs (x : Int) : Int := if x < 0 then wrapInt (-x) else x

/-! ## Observable events and outcomes -/

/-- How a receive selects the sender: `MPI_ANY_SOURCE` or one rank. -/
inductive Source where
  | any
  | rank (r : Int)
  deriving DecidableEq, Repr

/-- A message in flight on `MPI_COMM_WORLD`: one `MPI_INT` with its envelope. -/
structure Message where
  source : Int
  tag : Int
  data : Int
  deriving DecidableEq, Repr

/-- The operations of a process that are visible from outside, in program order. -/
inductive Event where
  /-- Call `srand(seed)`. -/
  | srand (seed : Nat)
  /-- Call `rand()`, which returned `value`. -/
  | rand (value : Nat)
  /-- The line "Usage: mpirun -np p prog domain_size max_steps" on `cerr`. -/
  | usage (prog : String)
  /-- The line "Rank r: Walker finished in s steps." on `cout`. -/
  | walkerFinished (rank steps : Int)
  /-- The line "Controller: No walkers to manage." on `cout`. -/
  | noWalkers
  /-- The line "Controller: All c walkers have finished." on `cout`. -/
  | allFinished (count : Int)
  /-- A completed `MPI_Send` of one `MPI_INT`. -/
  | send (data dest tag : Int)
  /-- A completed `MPI_Recv` posted with `source` and `tag`, which matched `msg`. -/
  | recv (source : Source) (tag : Int) (msg : Message)
  /-- Call `MPI_Finalize`. -/
  | finalize
  deriving DecidableEq, Repr

/-- Is the event a completed `MPI_Send`? -/
def Event.isSend : Event → Bool
  | Event.send _ _ _ => true
  | _ => false

/-- Result of running a piece of the program. -/
inductive Outcome (α : Type) where
  /-- The code ran to its end. -/
  | ok (a : α)
  /-- The code waits forever in a receive that no message matches. -/
  | blocked
  /-- The fuel was used up before the code ended. -/
  | outOfFuel
  deriving DecidableEq, Repr

/-! ## Walker -/

/-- The seed passed to `srand`: `time(NULL) + world_rank` is computed in
`time_t` and converted to `unsigned int`. -/
def seedOf (now world_rank : Int) : Nat :=
  (wrapLong (now + world_rank) % 4294967296).toNat

/-- Local state of `walker_process` while it loops: the two locals, the number
of `rand()` calls made so far, and the events so far. -/
structure Walker where
  position : Int
  steps : Int
  draws : Nat
  trace : List Event
  deriving DecidableEq, Repr

/-- One pass through the body of the `while (true)` loop, up to the exit test
(lines 66 to 71). -/
def walkStep (rnd : Nat → Nat) (w : Walker) : Walker :=
  { position :=
      if rnd w.draws % 2 = 0 then wrapInt (w.position - 1) else wrapInt (w.position + 1)
    steps := wrapInt (w.steps + 1)
    draws := w.draws + 1
    trace := w.trace ++ [Event.rand (rnd w.draws)] }

/-- The exit test of line 76. -/
def exitCondition (domain_size max_steps : Int) (w : Walker) : Bool :=
  decide (abs w.position > domain_size) || decide (w.steps ≥ max_steps)

/-- The `while (true)` loop of `walker_process` (lines 63 to 81). -/
def walkLoop (rnd : Nat → Nat) (domain_size max_steps : Int) : Nat → Walker → Outcome Walker
  | 0, _ => Outcome.outOfFuel
  | fuel + 1, w =>
    if exitCondition domain_size max_steps (walkStep rnd w) then Outcome.ok (walkStep rnd w)
    else walkLoop rnd domain_size max_steps fuel (walkStep rnd w)

/-- State of the walker when it enters the loop: `position = 0`, `steps = 0`. -/
def Walker.start (trace : List Event) : Walker :=
  { position := 0, steps := 0, draws := 0, trace := trace }

/-- The function `walker_process`; `gen seed` is the stream of values that `rand()`
returns after `srand(seed)`. -/
def walker_process (now : Int) (gen : Nat → Nat → Nat)
    (world_rank domain_size max_steps : Int) (fuel : Nat) : Outcome (List Event) :=
  match walkLoop (gen (seedOf now world_rank)) domain_size max_steps fuel
      (Walker.start [Event.srand (seedOf now world_rank)]) with
  | Outcome.ok w =>
    Outcome.ok (w.trace ++ [Event.walkerFinished world_rank w.steps, Event.send 1 0 0])
  | Outcome.blocked => Outcome.blocked
  | Outcome.outOfFuel => Outcome.outOfFuel

/-! ## Controller -/

/-- Does a receive posted with `source` and `tag` match the message? -/
def Message.isMatch (source : Source) (tag : Int) (m : Message) : Bool :=
  decide (m.tag = tag) &&
    (match source with
     | Source.any => true
     | Source.rank r => decide (m.source = r))

/-- The blocking `MPI_Recv`: take the earliest arrived message that matches, leaving
the others in arrival order; `none` when no message matches. -/
def MPI_Recv (source : Source) (tag : Int) : List Message → Option (Message × List Message)
  | [] => none
  | m :: rest =>
    if m.isMatch source tag then some (m, rest)
    else
      match MPI_Recv source tag rest with
      | some (m', rest') => some (m', m :: rest')
      | none => none

/-- Local state of `controller_process` in its receive loop. -/
structure Controller where
  i : Int
  finished_walkers_count : Int
  inbox : List Message
  trace : List Event
  deriving DecidableEq, Repr

/-- The `for` loop of `controller_process` (lines 117 to 131). -/
def recvLoop (num_walkers : Int) : Nat → Controller → Outcome Controller
  | 0, _ => Outcome.outOfFuel
  | fuel + 1, c =>
    if c.i < num_walkers then
      match MPI_Recv Source.any 0 c.inbox with
      | none => Outcome.blocked
      | some (m, rest) =>
        recvLoop num_walkers fuel
          { i := wrapInt (c.i + 1)
            finished_walkers_count := wrapInt (c.finished_walkers_count + 1)
            inbox := rest
            trace := c.trace ++ [Event.recv Source.any 0 m] }
    else Outcome.ok c

/-- The function `controller_process`; `inbox` holds the messages addressed to rank 0
in their order of arrival. -/
def controller_process (world_size : Int) (inbox : List Message) (fuel : Nat) :
    Outcome (List Event) :=
  if wrapInt (world_size - 1) ≤ 0 then Outcome.ok [Event.noWalkers]
  else
    match recvLoop (wrapInt (world_size - 1)) fuel
        { i := 0, finished_walkers_count := 0, inbox := inbox, trace := [] } with
    | Outcome.ok c => Outcome.ok (c.trace ++ [Event.allFinished c.finished_walkers_count])
    | Outcome.blocked => Outcome.blocked
    | Outcome.outOfFuel => Outcome.outOfFuel

/-! ## Program entry -/

/-- The `isspace` of the C locale. -/
def isspace (c : Char) : Bool :=
  c.toNat = 32 || (9 ≤ c.toNat && c.toNat ≤ 13)

/-- Value of the longest run of decimal digits at the head of the text. -/
def digitsValue (acc : Nat) : List Char → Nat
  | [] => acc
  | c :: cs =>
    if 48 ≤ c.toNat ∧ c.toNat ≤ 57 then digitsValue (acc * 10 + (c.toNat - 48)) cs else acc

/-- The `atoi` of `cstdlib`: skip white space, read an optional sign and the decimal
digits that follow; text with no digits there gives 0.  The result is reduced to `int`. -/
def atoi (s : String) : Int :=
  match s.toList.dropWhile isspace with
  | [] => 0
  | c :: cs =>
    if c = '-' then wrapInt (-(digitsValue 0 cs : Int))
    else if c = '+' then wrapInt (digitsValue 0 cs)
    else wrapInt (digitsValue 0 (c :: cs))

/-- The function `main` as run by the unit `world_rank` of a group of `world_size`;
`argv` is the argument vector after `MPI_Init`, so `argc` is its length.  The result
is the exit code with the events of the unit. -/
def main (argv : List String) (world_rank world_size : Int) (now : Int)
    (gen : Nat → Nat → Nat) (inbox : List Message) (fuel : Nat) : Outcome (Int × List Event) :=
  if argv.length ≠ 3 then
    Outcome.ok (1, (if world_rank = 0 then [Event.usage (argv.getD 0 "")] else [])
      ++ [Event.finalize])
  else
    match (if world_rank = 0 then controller_process world_size inbox fuel
        else walker_process now gen world_rank (atoi (argv.getD 1 "")) (atoi (argv.getD 2 ""))
          fuel) with
    | Outcome.ok tr => Outcome.ok (0, tr ++ [Event.finalize])
    | Outcome.blocked => Outcome.blocked
    | Outcome.outOfFuel => Outcome.outOfFuel

/-! ## Reference definitions for the walk -/

/-- Position after `k` steps of the walk in unbounded integers: an even draw moves
left, an odd draw moves right. -/
def positionAfter (rnd : Nat → Nat) : Nat → Int
  | 0 => 0
  | k + 1 => positionAfter rnd k + (if rnd k % 2 = 0 then -1 else 1)

/-- First step index `k` with `1 ≤ k ≤ bound` at which the magnitude of the position
after `k` steps exceeds `domainHalfWidth`, if there is one. -/
def stepsToExit (rnd : Nat → Nat) (domainHalfWidth : Int) (bound : Nat) : Option Nat :=
  (List.range' 1 bound).find? (fun k => decide (|positionAfter rnd k| > domainHalfWidth))

/-- The step count `min(stepsToExit, maxSteps)`, read as `maxSteps` when no step index
up to `maxSteps` leaves the domain. -/
def expectedSteps (rnd : Nat → Nat) (domainHalfWidth : Int) (maxSteps : Nat) : Nat :=
  match stepsToExit rnd domainHalfWidth maxSteps with
  | some k => min k maxSteps
  | none => maxSteps

/-- Number of passes the loop makes: one when `max_steps` is not positive, the
reference step count otherwise. -/
def loopCount (rnd : Nat → Nat) (d m : Int) : Nat :=
  if m ≤ 0 then 1 else expectedSteps rnd d m.toNat

/-- Is the text a positive integer in decimal digits?  This is what the startup
parameters `domainHalfWidth` and `maxSteps` are required to be. -/
def isPositiveInteger (s : String) : Bool :=
  !s.toList.isEmpty && s.toList.all (fun c => decide (48 ≤ c.toNat ∧ c.toNat ≤ 57)) &&
    decide (0 < digitsValue 0 s.toList)

/-- Startup parameters are valid when both are present and each is a positive integer. -/
def validParameters (argv : List String) : Bool :=
  decide (argv.length = 3) && isPositiveInteger (argv.getD 1 "") &&
    isPositiveInteger (argv.getD 2 "")

/-! ## Machine integer facts -/

theorem wrapInt_eq_self {x : Int} (h1 : INT_MIN ≤ x) (h2 : x ≤ INT_MAX) : wrapInt x = x := by
  unfold INT_MIN at h1
  unfold INT_MAX at h2
  unfold wrapInt
  omega

theorem wrapInt_le (x : Int) : wrapInt x ≤ INT_MAX := by
  unfold wrapInt INT_MAX
  omega

theorem abs_eq_abs {x : Int} (h1 : INT_MIN < x) (h2 : x ≤ INT_MAX) : RandomWalk.abs x = |x| := by
  unfold INT_MIN at h1
  unfold INT_MAX at h2
  unfold RandomWalk.abs
  split
  · rw [abs_of_neg (by assumption)]
    unfold wrapInt
    omega
  · rw [abs_of_nonneg (by omega)]

theorem abs_unit_step {p q : Int} (h : q = p + 1 ∨ q = p - 1) :
    |q| = |p| + 1 ∨ |q| = |p| - 1 := by
  rcases abs_cases p with ⟨ha, _⟩ | ⟨ha, _⟩ <;> rcases abs_cases q with ⟨hb, _⟩ | ⟨hb, _⟩ <;>
    rw [ha, hb] <;> omega

theorem positionAfter_succ (rnd : Nat → Nat) (k : Nat) :
    positionAfter rnd (k + 1) = positionAfter rnd k + 1 ∨
      positionAfter rnd (k + 1) = positionAfter rnd k - 1 := by
  simp only [positionAfter]
  split
  · right; omega
  · left; rfl

theorem abs_positionAfter_le (rnd : Nat → Nat) (k : Nat) : |positionAfter rnd k| ≤ (k : Int) := by
  induction k with
  | zero => simp [positionAfter]
  | succ k ih =>
    rw [abs_le] at ih ⊢
    rcases positionAfter_succ rnd k with h | h <;> rw [h] <;> push_cast <;> constructor <;> omega

/-! ## The walker loop as an iteration of its body -/

theorem walkLoop_eq_iterate (rnd : Nat → Nat) (d m : Int) :
    ∀ (fuel n : Nat) (w : Walker), 1 ≤ n → n ≤ fuel →
      (∀ k, 1 ≤ k → k < n → exitCondition d m ((walkStep rnd)^[k] w) = false) →
      exitCondition d m ((walkStep rnd)^[n] w) = true →
      walkLoop rnd d m fuel w = Outcome.ok ((walkStep rnd)^[n] w) := by
  intro fuel
  induction fuel with
  | zero => intro n w h1 h2; omega
  | succ fuel ih =>
    intro n w h1 h2 hstay hexit
    rw [walkLoop]
    by_cases hn : n = 1
    · subst hn
      simp only [Function.iterate_one] at hexit ⊢
      rw [if_pos hexit]
    · have hfirst : exitCondition d m (walkStep rnd w) = false := by
        have := hstay 1 (le_refl 1) (by omega)
        simpa using this
      rw [hfirst]
      simp only [Bool.false_eq_true, if_false]
      obtain ⟨n', rfl⟩ : ∃ n', n = n' + 1 := ⟨n - 1, by omega⟩
      rw [Function.iterate_succ_apply] at hexit ⊢
      apply ih n' (walkStep rnd w) (by omega) (by omega) _ hexit
      intro k hk1 hk2
      have := hstay (k + 1) (by omega) (by omega)
      rwa [Function.iterate_succ_apply] at this

theorem walkLoop_ok_iterate (rnd : Nat → Nat) (d m : Int) :
    ∀ (fuel : Nat) (w w' : Walker), walkLoop rnd d m fuel w = Outcome.ok w' →
      ∃ n, 1 ≤ n ∧ n ≤ fuel ∧ w' = (walkStep rnd)^[n] w ∧
        (∀ k, 1 ≤ k → k < n → exitCondition d m ((walkStep rnd)^[k] w) = false) ∧
        exitCondition d m ((walkStep rnd)^[n] w) = true := by
  intro fuel
  induction fuel with
  | zero => intro w w' h; simp [walkLoop] at h
  | succ fuel ih =>
    intro w w' h
    rw [walkLoop] at h
    by_cases hx : exitCondition d m (walkStep rnd w) = true
    · rw [if_pos hx] at h
      refine ⟨1, le_refl 1, by omega, ?_, ?_, ?_⟩
      · simpa using (Outcome.ok.inj h).symm
      · intro k hk1 hk2; omega
      · simpa using hx
    · rw [if_neg hx] at h
      obtain ⟨n, h1, h2, h3, h4, h5⟩ := ih _ _ h
      refine ⟨n + 1, by omega, by omega, ?_, ?_, ?_⟩
      · rw [Function.iterate_succ_apply]; exact h3
      · intro k hk1 hk2
        by_cases hk : k = 1
        · subst hk; simpa using hx
        · obtain ⟨k', rfl⟩ : ∃ k', k = k' + 1 := ⟨k - 1, by omega⟩
          rw [Function.iterate_succ_apply]
          exact h4 k' (by omega) (by omega)
      · rw [Function.iterate_succ_apply]; exact h5

theorem iterate_walkStep (rnd : Nat → Nat) (tr : List Event) :
    ∀ k : Nat, (k : Int) ≤ INT_MAX →
      ((walkStep rnd)^[k] (Walker.start tr)).position = positionAfter rnd k ∧
      ((walkStep rnd)^[k] (Walker.start tr)).steps = (k : Int) ∧
      ((walkStep rnd)^[k] (Walker.start tr)).draws = k := by
  intro k
  induction k with
  | zero => intro _; simp [Walker.start, positionAfter]
  | succ k ih =>
    intro hk
    push_cast at hk
    obtain ⟨hp, hs, hd⟩ := ih (by omega)
    have hb := abs_positionAfter_le rnd k
    rw [abs_le] at hb
    have hmax : INT_MAX = 2147483647 := rfl
    have hmin : INT_MIN = -2147483648 := rfl
    rw [Function.iterate_succ_apply']
    simp only [walkStep, hp, hs, hd, positionAfter]
    refine ⟨?_, ?_, trivial⟩
    · split
      · rw [wrapInt_eq_self (by omega) (by omega)]; omega
      · rw [wrapInt_eq_self (by omega) (by omega)]
    · rw [wrapInt_eq_self (by omega) (by omega)]; push_cast; rfl

theorem exitCondition_iterate (rnd : Nat → Nat) (d m : Int) (tr : List Event) (k : Nat)
    (hk : (k : Int) ≤ INT_MAX) :
    exitCondition d m ((walkStep rnd)^[k] (Walker.start tr)) = true ↔
      (|positionAfter rnd k| > d ∨ (k : Int) ≥ m) := by
  obtain ⟨hp, hs, _⟩ := iterate_walkStep rnd tr k hk
  have hb := abs_positionAfter_le rnd k
  have hb2 := hb
  rw [abs_le] at hb2
  have hmax : INT_MAX = 2147483647 := rfl
  have hmin : INT_MIN = -2147483648 := rfl
  simp only [exitCondition, hp, hs, Bool.or_eq_true, decide_eq_true_eq]
  rw [abs_eq_abs (by omega) (by omega)]

/-! ## The reference step count -/

theorem find?_range'_eq_some (p : Nat → Bool) :
    ∀ (len s k : Nat), (List.range' s len).find? p = some k ↔
      (s ≤ k ∧ k < s + len ∧ p k = true ∧ ∀ j, s ≤ j → j < k → p j = false) := by
  intro len
  induction len with
  | zero => intro s k; simp; intro h1 h2; omega
  | succ len ih =>
    intro s k
    rw [List.range'_succ, List.find?_cons]
    cases hps : p s with
    | true =>
      simp only [Option.some.injEq]
      constructor
      · rintro rfl
        exact ⟨le_refl _, by omega, hps, fun j h1 h2 => by omega⟩
      · rintro ⟨h1, _, _, h4⟩
        by_contra hne
        have := h4 s (le_refl _) (by omega)
        rw [hps] at this
        exact Bool.noConfusion this
    | false =>
      simp only []
      rw [ih (s + 1) k]
      constructor
      · rintro ⟨h1, h2, h3, h4⟩
        refine ⟨by omega, by omega, h3, ?_⟩
        intro j hj1 hj2
        by_cases hj : j = s
        · subst hj; exact hps
        · exact h4 j (by omega) hj2
      · rintro ⟨h1, h2, h3, h4⟩
        have hne : k ≠ s := by
          rintro rfl
          rw [hps] at h3
          exact Bool.noConfusion h3
        exact ⟨by omega, by omega, h3, fun j hj1 hj2 => h4 j (by omega) hj2⟩

theorem stepsToExit_eq_some_iff (rnd : Nat → Nat) (d : Int) (bound k : Nat) :
    stepsToExit rnd d bound = some k ↔
      (1 ≤ k ∧ k ≤ bound ∧ |positionAfter rnd k| > d ∧
        ∀ j, 1 ≤ j → j < k → |positionAfter rnd j| ≤ d) := by
  unfold stepsToExit
  rw [find?_range'_eq_some]
  simp only [decide_eq_true_eq, decide_eq_false_iff_not, not_lt, gt_iff_lt]
  constructor
  · rintro ⟨h1, h2, h3, h4⟩; exact ⟨h1, by omega, h3, h4⟩
  · rintro ⟨h1, h2, h3, h4⟩; exact ⟨h1, by omega, h3, h4⟩

theorem stepsToExit_eq_none_iff (rnd : Nat → Nat) (d : Int) (bound : Nat) :
    stepsToExit rnd d bound = none ↔
      ∀ j, 1 ≤ j → j ≤ bound → |positionAfter rnd j| ≤ d := by
  unfold stepsToExit
  rw [List.find?_eq_none]
  simp only [List.mem_range'_1, decide_eq_true_eq, not_lt, gt_iff_lt, and_imp]
  constructor
  · intro h j h1 h2; exact h j h1 (by omega)
  · intro h j h1 h2; exact h j h1 (by omega)

theorem expectedSteps_spec (rnd : Nat → Nat) (d : Int) (M : Nat) (hM : 1 ≤ M) :
    1 ≤ expectedSteps rnd d M ∧ expectedSteps rnd d M ≤ M ∧
      (∀ k, 1 ≤ k → k < expectedSteps rnd d M → |positionAfter rnd k| ≤ d) ∧
      (expectedSteps rnd d M < M → |positionAfter rnd (expectedSteps rnd d M)| > d) := by
  cases h : stepsToExit rnd d M with
  | none =>
    have hE : expectedSteps rnd d M = M := by simp [expectedSteps, h]
    rw [hE]
    rw [stepsToExit_eq_none_iff] at h
    exact ⟨hM, le_refl _, fun k h1 h2 => h k h1 (by omega), fun hlt => absurd hlt (lt_irrefl _)⟩
  | some k =>
    have hE : expectedSteps rnd d M = min k M := by simp only [expectedSteps, h]
    rw [stepsToExit_eq_some_iff] at h
    obtain ⟨h1, h2, h3, h4⟩ := h
    rw [hE, min_eq_left h2]
    exact ⟨h1, h2, h4, fun _ => h3⟩

theorem loopCount_spec (rnd : Nat → Nat) (d m : Int) :
    1 ≤ loopCount rnd d m ∧ ((loopCount rnd d m : Nat) : Int) ≤ max 1 m ∧
      (∀ k, 1 ≤ k → k < loopCount rnd d m → |positionAfter rnd k| ≤ d ∧ (k : Int) < m) ∧
      (|positionAfter rnd (loopCount rnd d m)| > d ∨ ((loopCount rnd d m : Nat) : Int) ≥ m) := by
  unfold loopCount
  split
  · refine ⟨le_refl 1, by simp, fun k h1 h2 => by omega, Or.inr (by push_cast; omega)⟩
  · obtain ⟨h1, h2, h3, h4⟩ := expectedSteps_spec rnd d m.toNat (by omega)
    refine ⟨h1, ?_, fun k hk1 hk2 => ⟨h3 k hk1 hk2, by omega⟩, ?_⟩
    · rw [le_max_iff]; right; omega
    · by_cases hlt : expectedSteps rnd d m.toNat < m.toNat
      · exact Or.inl (h4 hlt)
      · right; omega

theorem walkLoop_result (rnd : Nat → Nat) (d m : Int) (tr : List Event) (hm : m ≤ INT_MAX)
    (fuel : Nat) (hfuel : loopCount rnd d m ≤ fuel) :
    walkLoop rnd d m fuel (Walker.start tr) =
      Outcome.ok ((walkStep rnd)^[loopCount rnd d m] (Walker.start tr)) := by
  obtain ⟨h1, h2, h3, h4⟩ := loopCount_spec rnd d m
  have hmax : INT_MAX = 2147483647 := rfl
  have hle : ((loopCount rnd d m : Nat) : Int) ≤ INT_MAX := by
    rcases le_max_iff.mp h2 with h | h <;> omega
  apply walkLoop_eq_iterate rnd d m fuel _ _ h1 hfuel
  · intro k hk1 hk2
    have hk : (k : Int) ≤ INT_MAX := by omega
    have := h3 k hk1 hk2
    rw [Bool.eq_false_iff, Ne, exitCondition_iterate rnd d m tr k hk]
    rintro (h | h)
    · exact absurd h (not_lt.mpr this.1)
    · omega
  · rw [exitCondition_iterate rnd d m tr _ hle]
    exact h4

theorem walkLoop_ok_count (rnd : Nat → Nat) (d m : Int) (tr : List Event) (hm : m ≤ INT_MAX)
    (fuel : Nat) (w : Walker) (h : walkLoop rnd d m fuel (Walker.start tr) = Outcome.ok w) :
    ∃ n : Nat, 1 ≤ n ∧ (n : Int) ≤ max 1 m ∧ n ≤ fuel ∧
      w = (walkStep rnd)^[n] (Walker.start tr) ∧
      (∀ k, 1 ≤ k → k < n → |positionAfter rnd k| ≤ d ∧ (k : Int) < m) ∧
      (|positionAfter rnd n| > d ∨ (n : Int) ≥ m) := by
  obtain ⟨n, h1, h2, h3, h4, h5⟩ := walkLoop_ok_iterate rnd d m fuel _ _ h
  have hmax : INT_MAX = 2147483647 := rfl
  have hstay : ∀ k, 1 ≤ k → k < n → (k : Int) ≤ INT_MAX →
      |positionAfter rnd k| ≤ d ∧ (k : Int) < m := by
    intro k hk1 hk2 hk3
    have := h4 k hk1 hk2
    rw [Bool.eq_false_iff, Ne, exitCondition_iterate rnd d m tr k hk3] at this
    constructor
    · exact not_lt.mp (fun hgt => this (Or.inl hgt))
    · exact not_le.mp (fun hge => this (Or.inr hge))
  have hn : (n : Int) ≤ max 1 m := by
    by_contra hgt
    rw [not_le, max_lt_iff] at hgt
    have := hstay (max 1 m).toNat (by omega) (by omega) (by omega)
    omega
  have hn' : (n : Int) ≤ INT_MAX := by
    rcases le_max_iff.mp hn with h | h <;> omega
  refine ⟨n, h1, hn, h2, h3, fun k hk1 hk2 => hstay k hk1 hk2 (by omega), ?_⟩
  exact (exitCondition_iterate rnd d m tr n hn').mp h5

theorem iterate_walkStep_trace (rnd : Nat → Nat) (w : Walker) :
    ∀ n : Nat, ∃ draws : List Event, ((walkStep rnd)^[n] w).trace = w.trace ++ draws ∧
      draws.length = n ∧ ∀ e ∈ draws, ∃ v, e = Event.rand v := by
  intro n
  induction n with
  | zero => exact ⟨[], by simp⟩
  | succ n ih =>
    obtain ⟨l, h1, h2, h3⟩ := ih
    refine ⟨l ++ [Event.rand (rnd ((walkStep rnd)^[n] w).draws)], ?_, by simp [h2], ?_⟩
    · rw [Function.iterate_succ_apply']
      simp only [walkStep, h1, List.append_assoc]
    · intro e he
      rcases List.mem_append.mp he with h | h
      · exact h3 e h
      · exact ⟨_, List.mem_singleton.mp h⟩

theorem walker_process_returns (now : Int) (gen : Nat → Nat → Nat)
    (world_rank domain_size max_steps : Int) (hmax : max_steps ≤ INT_MAX) :
    ∃ n, ∀ fuel, n ≤ fuel →
      ∃ tr, walker_process now gen world_rank domain_size max_steps fuel = Outcome.ok tr := by
  refine ⟨loopCount (gen (seedOf now world_rank)) domain_size max_steps, ?_⟩
  intro fuel hfuel
  unfold walker_process
  rw [walkLoop_result _ domain_size max_steps _ hmax fuel hfuel]
  exact ⟨_, rfl⟩

/-! ## The walker: claims -/

/-- C1: for `max_steps > 0` (an `int`), whatever the domain half-width and the sequence of
random draws, the walker loop started at `position = 0`, `steps = 0` returns as soon as
the fuel reaches `max_steps`, and its final step count is `min(stepsToExit, max_steps)`:
no earlier step index left the domain, the loop stopped below `max_steps` only by
leaving the domain, and the count never exceeds `max_steps`. -/
theorem walker_loop_step_count (rnd : Nat → Nat) (domain_size max_steps : Int)
    (trace : List Event) (hd : 0 < domain_size) (hm : 0 < max_steps)
    (hmax : max_steps ≤ INT_MAX) (fuel : Nat) (hfuel : max_steps.toNat ≤ fuel) :
    ∃ w, walkLoop rnd domain_size max_steps fuel (Walker.start trace) = Outcome.ok w ∧
      w.steps = (expectedSteps rnd domain_size max_steps.toNat : Nat) ∧
      w.position = positionAfter rnd (expectedSteps rnd domain_size max_steps.toNat) ∧
      1 ≤ w.steps ∧ w.steps ≤ max_steps ∧
      (∀ k : Nat, 1 ≤ k → (k : Int) < w.steps → |positionAfter rnd k| ≤ domain_size) ∧
      (w.steps < max_steps → |w.position| > domain_size) := by
  have _ := hd
  have hcount : loopCount rnd domain_size max_steps =
      expectedSteps rnd domain_size max_steps.toNat := by
    unfold loopCount
    rw [if_neg (by omega)]
  obtain ⟨e1, e2, e3, e4⟩ := expectedSteps_spec rnd domain_size max_steps.toNat (by omega)
  have hmax' : INT_MAX = 2147483647 := rfl
  have hrun := walkLoop_result rnd domain_size max_steps trace hmax fuel (by omega)
  rw [hcount] at hrun
  obtain ⟨hp, hs, _⟩ := iterate_walkStep rnd trace
    (expectedSteps rnd domain_size max_steps.toNat) (by omega)
  refine ⟨_, hrun, hs, hp, ?_, ?_, ?_, ?_⟩
  · rw [hs]; omega
  · rw [hs]; omega
  · intro k hk1 hk2
    rw [hs] at hk2
    exact e3 k hk1 (by omega)
  · intro hlt
    rw [hs] at hlt
    rw [hp]
    exact e4 (by omega)

/-- C5: when `domain_size <= 0` or `max_steps <= 0`, the walker loop returns after
exactly one pass, for every sequence of draws and any positive fuel. -/
theorem walker_loop_nonpositive (rnd : Nat → Nat) (domain_size max_steps : Int)
    (trace : List Event) (h : domain_size ≤ 0 ∨ max_steps ≤ 0) (fuel : Nat) :
    ∃ w, walkLoop rnd domain_size max_steps (fuel + 1) (Walker.start trace) = Outcome.ok w ∧
      w.steps = 1 ∧ w.draws = 1 ∧ w = walkStep rnd (Walker.start trace) := by
  have hs : (walkStep rnd (Walker.start trace)).steps = 1 := by
    simp [walkStep, Walker.start, wrapInt]
  have hp : RandomWalk.abs (walkStep rnd (Walker.start trace)).position = 1 := by
    simp only [walkStep, Walker.start]
    split <;> simp [RandomWalk.abs, wrapInt]
  have hx : exitCondition domain_size max_steps (walkStep rnd (Walker.start trace)) = true := by
    simp only [exitCondition, hs, hp, Bool.or_eq_true, decide_eq_true_eq]
    omega
  refine ⟨walkStep rnd (Walker.start trace), ?_, hs, rfl, rfl⟩
  rw [walkLoop, if_pos hx]

/-- C6: with `domain_size = 1` and `max_steps = 1` the walker loop returns after exactly
one step, at position `-1` after an even draw and `+1` after an odd draw. -/
theorem walker_loop_one_one (rnd : Nat → Nat) (trace : List Event) (fuel : Nat) :
    walkLoop rnd 1 1 (fuel + 1) (Walker.start trace) =
      Outcome.ok { position := if rnd 0 % 2 = 0 then -1 else 1, steps := 1, draws := 1,
                   trace := trace ++ [Event.rand (rnd 0)] } := by
  have hs : (walkStep rnd (Walker.start trace)).steps = 1 := by
    simp [walkStep, Walker.start, wrapInt]
  have hx : exitCondition 1 1 (walkStep rnd (Walker.start trace)) = true := by
    simp [exitCondition, hs]
  rw [walkLoop, if_pos hx]
  simp only [walkStep, Walker.start]
  split <;> simp [wrapInt]

/-- C7: the walker loop (from `position = 0`, `steps = 0`, with `max_steps` an `int`)
returns, and in every run that returns the final state is the loop body applied `n`
times for some `n >= 1`, and each of these passes moves `position` by exactly `+1`
or `-1`, changes `abs(position)` by exactly 1, and raises `steps` by exactly 1, so
that `steps = k` after the `k`-th pass. -/
theorem walk_trace_unit_steps (rnd : Nat → Nat) (domain_size max_steps : Int)
    (trace : List Event) (hmax : max_steps ≤ INT_MAX) :
    (∃ fuel w, walkLoop rnd domain_size max_steps fuel (Walker.start trace) = Outcome.ok w) ∧
    ∀ fuel w, walkLoop rnd domain_size max_steps fuel (Walker.start trace) = Outcome.ok w →
    ∃ n : Nat, 1 ≤ n ∧ w = (walkStep rnd)^[n] (Walker.start trace) ∧ w.steps = (n : Int) ∧
      ∀ k : Nat, k < n →
        (((walkStep rnd)^[k + 1] (Walker.start trace)).position =
            ((walkStep rnd)^[k] (Walker.start trace)).position + 1 ∨
          ((walkStep rnd)^[k + 1] (Walker.start trace)).position =
            ((walkStep rnd)^[k] (Walker.start trace)).position - 1) ∧
        (|((walkStep rnd)^[k + 1] (Walker.start trace)).position| =
            |((walkStep rnd)^[k] (Walker.start trace)).position| + 1 ∨
          |((walkStep rnd)^[k + 1] (Walker.start trace)).position| =
            |((walkStep rnd)^[k] (Walker.start trace)).position| - 1) ∧
        ((walkStep rnd)^[k + 1] (Walker.start trace)).steps =
          ((walkStep rnd)^[k] (Walker.start trace)).steps + 1 ∧
        ((walkStep rnd)^[k] (Walker.start trace)).steps = (k : Int) ∧
        ((walkStep rnd)^[k + 1] (Walker.start trace)).steps = (k : Int) + 1 := by
  refine ⟨⟨_, _, walkLoop_result rnd domain_size max_steps trace hmax _ (le_refl _)⟩, ?_⟩
  intro fuel w h
  obtain ⟨n, h1, h2, _, h4, _, _⟩ :=
    walkLoop_ok_count rnd domain_size max_steps trace hmax fuel w h
  have hmax' : INT_MAX = 2147483647 := rfl
  have hn : (n : Int) ≤ INT_MAX := by
    rcases le_max_iff.mp h2 with h | h <;> omega
  refine ⟨n, h1, h4, ?_, ?_⟩
  · rw [h4]; exact (iterate_walkStep rnd trace n hn).2.1
  · intro k hk
    obtain ⟨p0, s0, _⟩ := iterate_walkStep rnd trace k (by omega)
    obtain ⟨p1, s1, _⟩ := iterate_walkStep rnd trace (k + 1) (by push_cast; omega)
    rw [p0, p1, s0, s1]
    push_cast
    exact ⟨positionAfter_succ rnd k, abs_unit_step (positionAfter_succ rnd k), rfl, rfl, rfl⟩

/-- C10: for `domain_size >= 0` and any `max_steps` (an `int`), the walker loop returns,
and whenever it returns the final position satisfies `abs(position) <= domain_size + 1`
and `abs(position) <= steps`; if it stopped below the step cap then
`abs(position) = domain_size + 1` exactly. -/
theorem walker_final_position (rnd : Nat → Nat) (domain_size max_steps : Int)
    (trace : List Event) (hd : 0 ≤ domain_size) (hmax : max_steps ≤ INT_MAX) :
    (∃ fuel w, walkLoop rnd domain_size max_steps fuel (Walker.start trace) = Outcome.ok w) ∧
    ∀ fuel w, walkLoop rnd domain_size max_steps fuel (Walker.start trace) = Outcome.ok w →
      |w.position| ≤ domain_size + 1 ∧ |w.position| ≤ w.steps ∧
      (w.steps < max_steps → |w.position| = domain_size + 1) := by
  refine ⟨⟨_, _, walkLoop_result rnd domain_size max_steps trace hmax _ (le_refl _)⟩, ?_⟩
  intro fuel w h
  obtain ⟨n, h1, h2, _, h4, h5, h6⟩ :=
    walkLoop_ok_count rnd domain_size max_steps trace hmax fuel w h
  have hmax' : INT_MAX = 2147483647 := rfl
  have hn : (n : Int) ≤ INT_MAX := by
    rcases le_max_iff.mp h2 with h | h <;> omega
  obtain ⟨hp, hs, _⟩ := iterate_walkStep rnd trace n hn
  rw [← h4] at hp hs
  rw [hp, hs]
  have hbound : |positionAfter rnd n| ≤ domain_size + 1 := by
    obtain ⟨j, rfl⟩ : ∃ j, n = j + 1 := ⟨n - 1, by omega⟩
    have hprev : |positionAfter rnd j| ≤ domain_size := by
      by_cases hj : j = 0
      · subst hj; simpa [positionAfter] using hd
      · exact (h5 j (by omega) (by omega)).1
    rw [abs_le] at hprev ⊢
    rcases positionAfter_succ rnd j with hstep | hstep <;> rw [hstep] <;> constructor <;> omega
  refine ⟨hbound, abs_positionAfter_le rnd n, ?_⟩
  intro hlt
  rcases h6 with h6 | h6
  · omega
  · omega

/-- C3: whenever `walker_process` returns (and it does for every `int` step cap), its
events are the `srand` call, then the `rand()` draws of the loop (at least one), then the
"finished" line, then one `MPI_Send` to rank 0: exactly one send over the whole run,
addressed to the controller, placed after every draw of the loop, whatever the number of
steps. -/
theorem walker_sends_one_signal (now : Int) (gen : Nat → Nat → Nat)
    (world_rank domain_size max_steps : Int) :
    (max_steps ≤ INT_MAX → ∃ n, ∀ fuel, n ≤ fuel →
      ∃ tr, walker_process now gen world_rank domain_size max_steps fuel = Outcome.ok tr) ∧
    ∀ fuel tr, walker_process now gen world_rank domain_size max_steps fuel = Outcome.ok tr →
      ∃ (draws : List Event) (steps : Int),
        tr = (Event.srand (seedOf now world_rank) :: draws) ++
          [Event.walkerFinished world_rank steps, Event.send 1 0 0] ∧
        1 ≤ draws.length ∧ (∀ e ∈ draws, ∃ v, e = Event.rand v) ∧
        tr.filter Event.isSend = [Event.send 1 0 0] ∧
        tr.getLast? = some (Event.send 1 0 0) := by
  constructor
  · exact walker_process_returns now gen world_rank domain_size max_steps
  · intro fuel tr h
    unfold walker_process at h
    cases hloop : walkLoop (gen (seedOf now world_rank)) domain_size max_steps fuel
        (Walker.start [Event.srand (seedOf now world_rank)]) with
    | blocked => rw [hloop] at h; exact Outcome.noConfusion h
    | outOfFuel => rw [hloop] at h; exact Outcome.noConfusion h
    | ok w =>
      rw [hloop] at h
      have htr := (Outcome.ok.inj h).symm
      obtain ⟨n, hn1, _, hw, _, _⟩ := walkLoop_ok_iterate _ _ _ _ _ _ hloop
      obtain ⟨draws, hd1, hd2, hd3⟩ := iterate_walkStep_trace (gen (seedOf now world_rank))
        (Walker.start [Event.srand (seedOf now world_rank)]) n
      rw [← hw] at hd1
      have hnil : draws.filter Event.isSend = [] := by
        rw [List.filter_eq_nil_iff]
        intro e he
        obtain ⟨v, rfl⟩ := hd3 e he
        simp [Event.isSend]
      refine ⟨draws, w.steps, ?_, by omega, hd3, ?_, ?_⟩
      · rw [htr, hd1]; simp [Walker.start]
      · rw [htr, hd1]
        simp [Walker.start, List.filter_append, hnil, List.filter_cons, Event.isSend]
      · rw [htr]
        simp [List.getLast?_append]

/-- C9: at one time value, two distinct walker ranks of a group (`0 < i, j < world_size`,
with `world_size` an `int`) pass different seeds to `srand`. -/
theorem seeds_differ (now i j world_size : Int) (hi : 0 < i) (hj : 0 < j)
    (hiw : i < world_size) (hjw : j < world_size) (hw : world_size ≤ INT_MAX) (hij : i ≠ j) :
    seedOf now i ≠ seedOf now j := by
  unfold INT_MAX at hw
  unfold seedOf wrapLong
  intro h
  have h2 := congrArg (fun n : Nat => (n : Int)) h
  simp only at h2
  rw [Int.toNat_of_nonneg (by omega), Int.toNat_of_nonneg (by omega)] at h2
  omega

/-! ## The controller -/

theorem MPI_Recv_filter (src : Source) (tag : Int) :
    ∀ (l : List Message) (m : Message) (ms : List Message),
      l.filter (Message.isMatch src tag) = m :: ms →
      ∃ rest, MPI_Recv src tag l = some (m, rest) ∧
        rest.filter (Message.isMatch src tag) = ms := by
  intro l
  induction l with
  | nil => intro m ms h; simp at h
  | cons a l ih =>
    intro m ms h
    by_cases ha : a.isMatch src tag = true
    · rw [List.filter_cons_of_pos ha] at h
      obtain ⟨rfl, rfl⟩ := List.cons.inj h
      exact ⟨l, by rw [MPI_Recv, if_pos ha], rfl⟩
    · rw [List.filter_cons_of_neg ha] at h
      obtain ⟨rest, h1, h2⟩ := ih m ms h
      refine ⟨a :: rest, ?_, ?_⟩
      · rw [MPI_Recv, if_neg ha, h1]
      · rw [List.filter_cons_of_neg ha, h2]

theorem recvLoop_collect (n : Int) (hn : n ≤ INT_MAX) :
    ∀ (fuel : Nat) (c : Controller) (j : Nat), c.i = (j : Int) →
      c.finished_walkers_count = (j : Int) → (j : Int) ≤ n →
      (n - j).toNat ≤ (c.inbox.filter (Message.isMatch Source.any 0)).length →
      (n - j).toNat + 1 ≤ fuel →
      ∃ rest, recvLoop n fuel c = Outcome.ok
        { i := n, finished_walkers_count := n, inbox := rest,
          trace := c.trace ++ (((c.inbox.filter (Message.isMatch Source.any 0)).take
            (n - j).toNat).map (Event.recv Source.any 0)) } := by
  have hmax : INT_MAX = 2147483647 := rfl
  have hmin : INT_MIN = -2147483648 := rfl
  intro fuel
  induction fuel with
  | zero => intro c j _ _ _ _ h; omega
  | succ fuel ih =>
    intro c j hi hc hjn hlen hfuel
    rw [recvLoop]
    by_cases hlt : c.i < n
    · rw [if_pos hlt]
      obtain ⟨k, hk⟩ : ∃ k, (n - j).toNat = k + 1 := ⟨(n - j).toNat - 1, by omega⟩
      rw [hk] at hlen
      obtain ⟨m, ms, hms⟩ : ∃ m ms, c.inbox.filter (Message.isMatch Source.any 0) = m :: ms := by
        cases hf : c.inbox.filter (Message.isMatch Source.any 0) with
        | nil => rw [hf] at hlen; simp at hlen
        | cons m ms => exact ⟨m, ms, rfl⟩
      obtain ⟨rest, hr1, hr2⟩ := MPI_Recv_filter Source.any 0 c.inbox m ms hms
      rw [hr1]
      simp only []
      rw [hms] at hlen
      simp only [List.length_cons] at hlen
      obtain ⟨rest', hrest'⟩ := ih
        { i := wrapInt (c.i + 1), finished_walkers_count := wrapInt (c.finished_walkers_count + 1),
          inbox := rest, trace := c.trace ++ [Event.recv Source.any 0 m] } (j + 1)
        (by simp only [hi]; rw [wrapInt_eq_self (by omega) (by omega)]; push_cast; rfl)
        (by simp only [hc]; rw [wrapInt_eq_self (by omega) (by omega)]; push_cast; rfl)
        (by push_cast; omega)
        (by simp only [hr2]; push_cast; omega)
        (by push_cast; omega)
      refine ⟨rest', ?_⟩
      rw [hrest']
      have hk' : (n - ((j + 1 : Nat) : Int)).toNat = k := by push_cast; omega
      simp only [hr2, hms, hk, hk', List.take_succ_cons, List.map_cons, List.append_assoc,
        List.singleton_append]
    · rw [if_neg hlt]
      have h0 : (n - j).toNat = 0 := by omega
      refine ⟨c.inbox, ?_⟩
      rw [h0]
      have hin : c.i = n := by omega
      have hcn : c.finished_walkers_count = n := by omega
      cases c
      simp only [List.take_zero, List.map_nil, List.append_nil] at hin hcn ⊢
      subst hin
      subst hcn
      rfl

theorem controller_process_collect (world_size : Int) (inbox : List Message)
    (h1 : 1 < world_size) (hmax : world_size ≤ INT_MAX)
    (hsig : (world_size - 1).toNat ≤ (inbox.filter (Message.isMatch Source.any 0)).length)
    (fuel : Nat) (hfuel : world_size.toNat ≤ fuel) :
    controller_process world_size inbox fuel = Outcome.ok
      ((((inbox.filter (Message.isMatch Source.any 0)).take (world_size - 1).toNat).map
        (Event.recv Source.any 0)) ++ [Event.allFinished (world_size - 1)]) := by
  have hmax' : INT_MAX = 2147483647 := rfl
  have hmin : INT_MIN = -2147483648 := rfl
  have hw : wrapInt (world_size - 1) = world_size - 1 :=
    wrapInt_eq_self (by omega) (by omega)
  unfold controller_process
  rw [hw, if_neg (by omega)]
  obtain ⟨rest, hrest⟩ := recvLoop_collect (world_size - 1) (by omega) fuel
    { i := 0, finished_walkers_count := 0, inbox := inbox, trace := [] } 0 rfl rfl
    (by push_cast; omega) (by simpa using hsig) (by push_cast; omega)
  rw [hrest]
  simp

/-- C2: for a group of `N > 1` units (`N` an `int`) and `N - 1` completion signals
(messages with tag 0, of any source and any payload), for every order in which the
signals arrive, `controller_process` completes exactly `N - 1` receives, each posted with
`MPI_ANY_SOURCE` and taking the next signal in arrival order, and then prints the final
tally `N - 1`; the tally is the same for every arrival order. -/
theorem controller_counts_signals (world_size : Int) (signals : List Message)
    (h1 : 1 < world_size) (hmax : world_size ≤ INT_MAX)
    (htag : ∀ m ∈ signals, m.tag = 0) (hlen : signals.length = (world_size - 1).toNat)
    (fuel : Nat) (hfuel : world_size.toNat ≤ fuel) :
    ∀ arrival : List Message, arrival.Perm signals →
      controller_process world_size arrival fuel = Outcome.ok
        (arrival.map (Event.recv Source.any 0) ++ [Event.allFinished (world_size - 1)]) ∧
      (arrival.map (Event.recv Source.any 0)).length = (world_size - 1).toNat := by
  intro arrival hperm
  have hall : arrival.filter (Message.isMatch Source.any 0) = arrival := by
    rw [List.filter_eq_self]
    intro m hm
    simp [Message.isMatch, htag m (hperm.subset hm)]
  have hl : arrival.length = (world_size - 1).toNat := by rw [hperm.length_eq, hlen]
  have := controller_process_collect world_size arrival h1 hmax (by rw [hall, hl]) fuel hfuel
  rw [hall, ← hl, List.take_length] at this
  exact ⟨this, by rw [List.length_map, hl]⟩

/-- C4: for a group of one unit `controller_process` prints the "no walkers" line and
returns at once: no receive is posted and no summary line is printed, whatever the
inbox holds. -/
theorem controller_no_walkers (inbox : List Message) (fuel : Nat) :
    controller_process 1 inbox fuel = Outcome.ok [Event.noWalkers] := by
  unfold controller_process
  rw [if_pos (by decide)]

/-! ## Program entry: exit codes -/

theorem atoi_le (s : String) : atoi s ≤ INT_MAX := by
  unfold atoi
  split
  · decide
  · split
    · exact wrapInt_le _
    · split
      · exact wrapInt_le _
      · exact wrapInt_le _

/-- C8, counterexample: with three arguments whose parameter texts are not positive
integers (`"abc"`, `"xyz"` are not numbers; `"-5"`, `"0"` are not positive), a walker and
the controller both run to the end and exit with code 0. -/
theorem main_accepts_invalid_parameters :
    validParameters ["random_walk", "abc", "xyz"] = false ∧
    main ["random_walk", "abc", "xyz"] 1 2 0 (fun _ _ => 0) [] 1 =
      Outcome.ok (0, [Event.srand 1, Event.rand 0, Event.walkerFinished 1 1,
        Event.send 1 0 0, Event.finalize]) ∧
    validParameters ["random_walk", "-5", "0"] = false ∧
    main ["random_walk", "-5", "0"] 0 2 0 (fun _ _ => 0) [⟨1, 0, 1⟩] 2 =
      Outcome.ok (0, [Event.recv Source.any 0 ⟨1, 0, 1⟩, Event.allFinished 1,
        Event.finalize]) := by
  decide

/-- C8, amended: `main` exits with code 1 in every unit when the argument count is not 3.
With an argument count of 3, whatever the two parameter texts are, every unit that runs
to the end exits with code 0; a walker always runs to the end, and the controller does so
once `world_size - 1` signals with tag 0 are in its inbox. -/
theorem main_exit_code (argv : List String) (world_rank world_size now : Int)
    (gen : Nat → Nat → Nat) (inbox : List Message) :
    (argv.length ≠ 3 → ∀ fuel, ∃ tr,
      main argv world_rank world_size now gen inbox fuel = Outcome.ok (1, tr)) ∧
    (argv.length = 3 → ∀ fuel code tr,
      main argv world_rank world_size now gen inbox fuel = Outcome.ok (code, tr) → code = 0) ∧
    (argv.length = 3 → world_rank ≠ 0 → ∃ n, ∀ fuel, n ≤ fuel → ∃ tr,
      main argv world_rank world_size now gen inbox fuel = Outcome.ok (0, tr)) ∧
    (argv.length = 3 → world_rank = 0 → 1 < world_size → world_size ≤ INT_MAX →
      (world_size - 1).toNat ≤ (inbox.filter (Message.isMatch Source.any 0)).length →
      ∀ fuel, world_size.toNat ≤ fuel → ∃ tr,
        main argv world_rank world_size now gen inbox fuel = Outcome.ok (0, tr)) := by
  refine ⟨?_, ?_, ?_, ?_⟩
  · intro h fuel
    unfold main
    rw [if_pos h]
    exact ⟨_, rfl⟩
  · intro h fuel code tr hrun
    unfold main at hrun
    rw [if_neg (by simpa using h)] at hrun
    split at hrun
    · exact (Prod.mk.inj (Outcome.ok.inj hrun)).1.symm
    · exact Outcome.noConfusion hrun
    · exact Outcome.noConfusion hrun
  · intro h hrank
    obtain ⟨n, hn⟩ := (walker_process_returns now gen world_rank (atoi (argv.getD 1 ""))
      (atoi (argv.getD 2 "")) (atoi_le _))
    refine ⟨n, fun fuel hfuel => ?_⟩
    obtain ⟨tr, htr⟩ := hn fuel hfuel
    unfold main
    rw [if_neg (by simpa using h), if_neg hrank, htr]
    exact ⟨_, rfl⟩
  · intro h hrank h1 hmax hsig fuel hfuel
    unfold main
    rw [if_neg (by simpa using h), if_pos hrank,
      controller_process_collect world_size inbox h1 hmax hsig fuel hfuel]
    exact ⟨_, rfl⟩

/-! ## Concrete runs -/

/-- C1 at a concrete run: half-width 2, cap 5, every draw odd; the walker leaves the
domain at step 3. -/
theorem walker_loop_step_count_witness :
    ∃ w, walkLoop (fun _ => 1) 2 5 5 (Walker.start []) = Outcome.ok w ∧
      w.steps = (expectedSteps (fun _ => 1) 2 (5 : Int).toNat : Nat) ∧
      w.position = positionAfter (fun _ => 1) (expectedSteps (fun _ => 1) 2 (5 : Int).toNat) ∧
      1 ≤ w.steps ∧ w.steps ≤ 5 ∧
      (∀ k : Nat, 1 ≤ k → (k : Int) < w.steps → |positionAfter (fun _ => 1) k| ≤ 2) ∧
      (w.steps < 5 → |w.position| > 2) :=
  walker_loop_step_count (fun _ => 1) 2 5 [] (by decide) (by decide) (by decide) 5 (by decide)

/-- C5 at a concrete run: half-width 0, cap 10, every draw even. -/
theorem walker_loop_nonpositive_witness :
    ∃ w, walkLoop (fun _ => 0) 0 10 (0 + 1) (Walker.start []) = Outcome.ok w ∧
      w.steps = 1 ∧ w.draws = 1 ∧ w = walkStep (fun _ => 0) (Walker.start []) :=
  walker_loop_nonpositive (fun _ => 0) 0 10 [] (Or.inl (by decide)) 0

/-- C7 at a concrete run: half-width 2, cap 5, every draw odd. -/
theorem walk_trace_unit_steps_witness :
    walkLoop (fun _ => 1) 2 5 5 (Walker.start []) =
      Outcome.ok ⟨3, 3, 3, [Event.rand 1, Event.rand 1, Event.rand 1]⟩ ∧
    ∃ n : Nat, 1 ≤ n ∧
      (⟨3, 3, 3, [Event.rand 1, Event.rand 1, Event.rand 1]⟩ : Walker) =
        (walkStep (fun _ => 1))^[n] (Walker.start []) ∧
      (3 : Int) = (n : Int) ∧
      ∀ k : Nat, k < n →
        (((walkStep (fun _ => 1))^[k + 1] (Walker.start [])).position =
            ((walkStep (fun _ => 1))^[k] (Walker.start [])).position + 1 ∨
          ((walkStep (fun _ => 1))^[k + 1] (Walker.start [])).position =
            ((walkStep (fun _ => 1))^[k] (Walker.start [])).position - 1) ∧
        (|((walkStep (fun _ => 1))^[k + 1] (Walker.start [])).position| =
            |((walkStep (fun _ => 1))^[k] (Walker.start [])).position| + 1 ∨
          |((walkStep (fun _ => 1))^[k + 1] (Walker.start [])).position| =
            |((walkStep (fun _ => 1))^[k] (Walker.start [])).position| - 1) ∧
        ((walkStep (fun _ => 1))^[k + 1] (Walker.start [])).steps =
          ((walkStep (fun _ => 1))^[k] (Walker.start [])).steps + 1 ∧
        ((walkStep (fun _ => 1))^[k] (Walker.start [])).steps = (k : Int) ∧
        ((walkStep (fun _ => 1))^[k + 1] (Walker.start [])).steps = (k : Int) + 1 :=
  ⟨by decide, (walk_trace_unit_steps (fun _ => 1) 2 5 [] (by decide)).2 5
    ⟨3, 3, 3, [Event.rand 1, Event.rand 1, Event.rand 1]⟩ (by decide)⟩

/-- C10 at concrete parameters: half-width 2, cap 5, every draw odd. -/
theorem walker_final_position_witness :
    walkLoop (fun _ => 1) 2 5 5 (Walker.start []) =
      Outcome.ok ⟨3, 3, 3, [Event.rand 1, Event.rand 1, Event.rand 1]⟩ ∧
    (|(3 : Int)| ≤ 2 + 1 ∧ |(3 : Int)| ≤ 3 ∧ ((3 : Int) < 5 → |(3 : Int)| = 2 + 1)) :=
  ⟨by decide, (walker_final_position (fun _ => 1) 2 5 [] (by decide) (by decide)).2 5
    ⟨3, 3, 3, [Event.rand 1, Event.rand 1, Event.rand 1]⟩ (by decide)⟩

/-- C9 at a concrete time value: ranks 1 and 2 of a group of 3. -/
theorem seeds_differ_witness : seedOf 1700000000 1 ≠ seedOf 1700000000 2 :=
  seeds_differ 1700000000 1 2 3 (by decide) (by decide) (by decide) (by decide) (by decide)
    (by decide)

/-- C2 at a concrete group of 3: the signal of rank 2 arrives before that of rank 1. -/
theorem controller_counts_signals_witness :
    controller_process 3 [⟨2, 0, 1⟩, ⟨1, 0, 1⟩] 3 = Outcome.ok
        ([(⟨2, 0, 1⟩ : Message), ⟨1, 0, 1⟩].map (Event.recv Source.any 0) ++
          [Event.allFinished (3 - 1)]) ∧
      ([(⟨2, 0, 1⟩ : Message), ⟨1, 0, 1⟩].map (Event.recv Source.any 0)).length =
        ((3 : Int) - 1).toNat :=
  controller_counts_signals 3 [⟨1, 0, 1⟩, ⟨2, 0, 1⟩] (by decide) (by decide) (by decide)
    (by decide) 3 (by decide) [⟨2, 0, 1⟩, ⟨1, 0, 1⟩] (List.Perm.swap _ _ _)

/-- C3 at a concrete run: rank 1 at time 0, half-width 2, cap 5, every draw odd; three
draws, then the "finished" line, then the one send to rank 0. -/
theorem walker_sends_one_signal_witness :
    walker_process 0 (fun _ _ => 1) 1 2 5 5 =
      Outcome.ok [Event.srand 1, Event.rand 1, Event.rand 1, Event.rand 1,
        Event.walkerFinished 1 3, Event.send 1 0 0] ∧
    ∃ (draws : List Event) (steps : Int),
      [Event.srand 1, Event.rand 1, Event.rand 1, Event.rand 1,
          Event.walkerFinished 1 3, Event.send 1 0 0] =
        (Event.srand (seedOf 0 1) :: draws) ++ [Event.walkerFinished 1 steps, Event.send 1 0 0] ∧
      1 ≤ draws.length ∧ (∀ e ∈ draws, ∃ v, e = Event.rand v) ∧
      [Event.srand 1, Event.rand 1, Event.rand 1, Event.rand 1,
          Event.walkerFinished 1 3, Event.send 1 0 0].filter Event.isSend =
        [Event.send 1 0 0] ∧
      [Event.srand 1, Event.rand 1, Event.rand 1, Event.rand 1,
          Event.walkerFinished 1 3, Event.send 1 0 0].getLast? = some (Event.send 1 0 0) :=
  ⟨by decide, (walker_sends_one_signal 0 (fun _ _ => 1) 1 2 5).2 5 _ (by decide)⟩

end RandomWalk
